import Mathlib

/-!
Verification of the Online Library Management System (`library_cli.py`).

The script talks to a backing store holding three tables: `members`,
`books` and `borrow_records`.  We embed a database snapshot as three
lists of rows and each operation of the script as a pure function from
a snapshot (plus its arguments) to a result together with the new
snapshot.  The `borrow_book` and `return_book` operations of the script
delegate to server-side RPC functions whose bodies are not part of the
repository; those two are modelled from the spec (see their doc
comments).  Timestamps are integers (seconds); a day is 86400 seconds.
-/

namespace LibraryMS

/-- A row of the `members` table. -/
structure Member where
  member_id : Nat
  name : String
  email : String
deriving DecidableEq, Repr

/-- A row of the `books` table.  `stock` is an integer: the script never
creates a negative stock itself, but `update_book_stock` writes arbitrary
integers, so the type does not rule negatives out. -/
structure Book where
  book_id : Nat
  title : String
  author : String
  category : Option String
  stock : Int
deriving DecidableEq, Repr

/-- A row of the `borrow_records` table.  `return_date = none` means the
loan is open. -/
structure BorrowRecord where
  record_id : Nat
  member_id : Nat
  book_id : Nat
  borrow_date : Int
  return_date : Option Int
deriving DecidableEq, Repr

/-- A snapshot of the three tables. -/
structure DB where
  members : List Member
  books : List Book
  borrow_records : List BorrowRecord
deriving DecidableEq, Repr

/-- The error kinds of the lending engine (spec section 7). -/
inductive LibError where
  | NotFound
  | OutOfStock
  | AlreadyReturned
  | HasBorrowHistory
  | HasActiveLoans
deriving DecidableEq, Repr

/-- Python truthiness of an optional string argument: `None` and the
empty string are falsy (`if name:` in the script). -/
def strTruthy : Option String → Bool
  | none => false
  | some s => !s.isEmpty

/-- Result marker for `update_member_info`: the script either prints
"Nothing to update." or performs the update. -/
inductive UpdateOutcome where
  | nothingToUpdate
  | updated
deriving DecidableEq, Repr

/-- `update_member_info(member_id, name, email)`: builds a payload from
the truthy arguments; with an empty payload it reports "Nothing to
update." and performs no write, otherwise it updates every member row
matching `member_id`. -/
def update_member_info (db : DB) (mid : Nat) (name email : Option String) :
    UpdateOutcome × DB :=
  if !strTruthy name && !strTruthy email then
    (UpdateOutcome.nothingToUpdate, db)
  else
    (UpdateOutcome.updated,
      { db with
        members := db.members.map (fun m =>
          if m.member_id == mid then
            { m with
              name := if strTruthy name then name.getD m.name else m.name,
              email := if strTruthy email then email.getD m.email else m.email }
          else m) })

/-- `delete_member(member_id)`: selects the borrow records of the member
with `return_date IS NULL`; if any exist it fails ("member has active
borrowed books"), otherwise it deletes the member rows and reports the
deleted rows (success even when zero rows matched). -/
def delete_member (db : DB) (mid : Nat) : Except LibError (List Member) × DB :=
  let active := db.borrow_records.filter
    (fun r => r.member_id == mid && r.return_date.isNone)
  if !active.isEmpty then
    (Except.error LibError.HasActiveLoans, db)
  else
    (Except.ok (db.members.filter (fun m => m.member_id == mid)),
      { db with members := db.members.filter (fun m => !(m.member_id == mid)) })

/-- `delete_book(book_id)`: selects all borrow records referencing the
book (open or closed); if any exist it fails ("book has borrow
history"), otherwise it deletes the book rows and reports the deleted
rows. -/
def delete_book (db : DB) (bid : Nat) : Except LibError (List Book) × DB :=
  let history := db.borrow_records.filter (fun r => r.book_id == bid)
  if !history.isEmpty then
    (Except.error LibError.HasBorrowHistory, db)
  else
    (Except.ok (db.books.filter (fun b => b.book_id == bid)),
      { db with books := db.books.filter (fun b => !(b.book_id == bid)) })

/-- Seconds in a day: `timedelta(days=days)` in the script. -/
def secondsPerDay : Int := 86400

/-- `report_overdue(days)`: selects the borrow records with
`return_date IS NULL` and `borrow_date <` the cutoff
`now - timedelta(days=days)`.  A pure read. -/
def report_overdue (db : DB) (now : Int) (days : Int) : List BorrowRecord :=
  let cutoff := now - days * secondsPerDay
  db.borrow_records.filter
    (fun r => r.return_date.isNone && decide (r.borrow_date < cutoff))

/-- `report_overdue` with the script's default argument `days = 14`. -/
def report_overdue_default (db : DB) (now : Int) : List BorrowRecord :=
  report_overdue db now 14

/-- One step of the client-side aggregation loop
`counts[book_id] = counts.get(book_id, 0) + 1`: a Python dict keeps
insertion order, so the association list increments an existing key in
place and appends a missing key at the end. -/
def bumpCount (bid : Nat) : List (Nat × Nat) → List (Nat × Nat)
  | [] => [(bid, 1)]
  | (b, c) :: rest =>
    if b == bid then (b, c + 1) :: rest else (b, c) :: bumpCount bid rest

/-- The `counts` dict of `report_most_borrowed` after the aggregation
loop over all borrow records, as an association list in key-insertion
order (first appearance of each `book_id`). -/
def countsItems (records : List BorrowRecord) : List (Nat × Nat) :=
  records.foldl (fun acc r => bumpCount r.book_id acc) []

/-- The sort relation of `sorted(counts.items(), key=lambda x: x[1],
reverse=True)`: larger count first. -/
def countGE (x y : Nat × Nat) : Prop := y.2 ≤ x.2

instance : DecidableRel countGE := fun x y => inferInstanceAs (Decidable (y.2 ≤ x.2))

instance : IsTotal (Nat × Nat) countGE := ⟨fun x y => le_total y.2 x.2⟩

instance : IsTrans (Nat × Nat) countGE := ⟨fun _ _ _ h h' => le_trans h' h⟩

/-- `report_most_borrowed(limit)`: aggregate all borrow records by
`book_id` client-side, sort by count descending and truncate to
`limit`.  Python's `sorted` is a stable sort; `List.insertionSort` with
the non-strict relation `countGE` is also stable (it inserts a new
element before the equal elements that follow it in the recursion,
which are exactly the later ones), so it computes the same list. -/
def report_most_borrowed (db : DB) (limit : Nat) : List (Nat × Nat) :=
  (List.insertionSort countGE (countsItems db.borrow_records)).take limit

/-- `report_most_borrowed` with the script's default `limit = 10`. -/
def report_most_borrowed_default (db : DB) : List (Nat × Nat) :=
  report_most_borrowed db 10

/-- Modelled from the spec: `CountBorrowRecordsGroupedByBook()` of the
Ledger Store contract (spec section 6), the store-side grouped count —
the number of borrow records referencing a given book.  The repository
contains no server-side implementation of it. -/
def countBorrowRecordsGroupedByBook (records : List BorrowRecord) (bid : Nat) : Nat :=
  records.countP (fun r => r.book_id == bid)

/-- Lookup in the `counts` dict with default `0`
(`counts.get(book_id, 0)`). -/
def lookupCount : List (Nat × Nat) → Nat → Nat
  | [], _ => 0
  | (b, c) :: rest, bid => if b == bid then c else lookupCount rest bid

/-- The client-side count of `report_most_borrowed` for one book: the
value stored under `bid` in the `counts` dict, `0` when absent. -/
def clientCount (records : List BorrowRecord) (bid : Nat) : Nat :=
  lookupCount (countsItems records) bid

/-- The next record id the store assigns: one past the largest existing
`record_id`. -/
def nextRecordId (db : DB) : Nat :=
  (db.borrow_records.map (fun r => r.record_id)).foldl max 0 + 1

/-- Modelled from the spec: the `borrow_book(p_member_id, p_book_id)`
server-side RPC the script calls, absent from the repository.  Spec
section 4.1: both ids must resolve to existing rows; it fails with
`OutOfStock` if `stock <= 0`, otherwise it decrements `stock` by 1 and
inserts a new `BorrowRecord` with `borrow_date = now`,
`return_date = null`, atomically. -/
def borrow_book (db : DB) (mid bid : Nat) (now : Int) :
    Except LibError BorrowRecord × DB :=
  match db.members.find? (fun m => m.member_id == mid) with
  | none => (Except.error LibError.NotFound, db)
  | some _ =>
    match db.books.find? (fun b => b.book_id == bid) with
    | none => (Except.error LibError.NotFound, db)
    | some bk =>
      if bk.stock ≤ 0 then
        (Except.error LibError.OutOfStock, db)
      else
        let r : BorrowRecord :=
          { record_id := nextRecordId db, member_id := mid, book_id := bid,
            borrow_date := now, return_date := none }
        (Except.ok r,
          { db with
            books := db.books.map (fun b =>
              if b.book_id == bid then { b with stock := b.stock - 1 } else b),
            borrow_records := db.borrow_records ++ [r] })

/-- Modelled from the spec: the `return_book(p_record_id)` server-side
RPC the script calls, absent from the repository.  Spec section 4.2:
the record must exist and be open (`return_date IS NULL`); returning a
closed record fails with `AlreadyReturned`; otherwise it sets
`return_date = now` and increments the referenced book's `stock` by 1,
atomically. -/
def return_book (db : DB) (rid : Nat) (now : Int) :
    Except LibError BorrowRecord × DB :=
  match db.borrow_records.find? (fun r => r.record_id == rid) with
  | none => (Except.error LibError.NotFound, db)
  | some r =>
    match r.return_date with
    | some _ => (Except.error LibError.AlreadyReturned, db)
    | none =>
      (Except.ok { r with return_date := some now },
        { db with
          borrow_records := db.borrow_records.map (fun q =>
            if q.record_id == rid then { q with return_date := some now } else q),
          books := db.books.map (fun b =>
            if b.book_id == r.book_id then { b with stock := b.stock + 1 } else b) })

/-- A lending-engine operation, for sequences of borrows and returns. -/
inductive Op where
  | borrowOp (mid bid : Nat) (now : Int)
  | returnOp (rid : Nat) (now : Int)
deriving DecidableEq, Repr

/-- The state after one operation (the result value is discarded). -/
def applyOp (db : DB) : Op → DB
  | Op.borrowOp mid bid now => (borrow_book db mid bid now).2
  | Op.returnOp rid now => (return_book db rid now).2

/-- The state after a sequence of operations. -/
def applyOps (db : DB) (ops : List Op) : DB :=
  ops.foldl applyOp db

/-- The number of open borrow records referencing a book. -/
def openCount (records : List BorrowRecord) (bid : Nat) : Nat :=
  records.countP (fun r => r.book_id == bid && r.return_date.isNone)

/-- The stock invariant (spec section 3), relative to a ghost count
`owned` of copies owned per book: record ids are distinct, and every
book row has a non-negative stock equal to `owned` minus its open loan
count. -/
def StockInv (owned : Nat → Int) (db : DB) : Prop :=
  (db.borrow_records.map (fun r => r.record_id)).Nodup ∧
    ∀ bk ∈ db.books,
      0 ≤ bk.stock ∧ bk.stock = owned bk.book_id - (openCount db.borrow_records bk.book_id : Int)

instance (owned : Nat → Int) (db : DB) : Decidable (StockInv owned db) := by
  unfold StockInv
  exact instDecidableAnd

/-- An example member row, used by the concrete witnesses below. -/
def annMember : Member := { member_id := 1, name := "ann", email := "a@x" }

/-- An example book row with one available copy. -/
def duneBook : Book :=
  { book_id := 1, title := "dune", author := "fh", category := none, stock := 1 }

/-- An example book row with no available copy. -/
def emptyBook : Book :=
  { book_id := 2, title := "void", author := "na", category := none, stock := 0 }

/-- An example state with one member and two books, no loans. -/
def stockDB : DB :=
  { members := [annMember], books := [duneBook, emptyBook], borrow_records := [] }

/-- An example open borrow record for `duneBook` by `annMember`. -/
def openRec : BorrowRecord :=
  { record_id := 1, member_id := 1, book_id := 1, borrow_date := 0, return_date := none }

/-- An example state with one open loan. -/
def loanDB : DB :=
  { members := [annMember], books := [duneBook], borrow_records := [openRec] }

/-- A borrow record referencing book 5, for the tie-break example. -/
def recBook5 : BorrowRecord :=
  { record_id := 1, member_id := 1, book_id := 5, borrow_date := 0, return_date := none }

/-- A borrow record referencing book 3, for the tie-break example. -/
def recBook3 : BorrowRecord :=
  { record_id := 2, member_id := 1, book_id := 3, borrow_date := 0, return_date := none }

/-- A ledger in which books 5 and 3 are each borrowed once, book 5
first: a tie on counts. -/
def tieDB : DB :=
  { members := [], books := [], borrow_records := [recBook5, recBook3] }

/-- Ghost copy counts matching `stockDB`: one copy of book 1, none of
book 2. -/
def ownedStockDB : Nat → Int := fun b => if b = 1 then 1 else 0

/-- An example operation sequence: borrow book 1, return it, then
attempt to borrow the out-of-stock book 2. -/
def opsEx : List Op :=
  [Op.borrowOp 1 1 10, Op.returnOp 1 20, Op.borrowOp 1 2 30]

/-- The ordering the spec proposes for the most-borrowed report: count
descending, ties broken by ascending book id. -/
def countDescIdAsc (x y : Nat × Nat) : Prop :=
  y.2 < x.2 ∨ (x.2 = y.2 ∧ x.1 < y.1)

instance : DecidableRel countDescIdAsc := fun x y =>
  inferInstanceAs (Decidable (y.2 < x.2 ∨ (x.2 = y.2 ∧ x.1 < y.1)))

end LibraryMS

namespace LibraryMS

/-- C5: `ReportOverdue(maxAge)` returns exactly the open borrow records
whose `borrow_date` is strictly before `now - maxAge`; closed records
and records borrowed at or after the cutoff are excluded; the result is
a selection (sublist) of the ledger, and the default cutoff is 14
days. -/
theorem report_overdue_exactly_overdue (db : DB) (now days : Int) :
    (report_overdue db now days).Sublist db.borrow_records ∧
      (∀ r, r ∈ report_overdue db now days ↔
        r ∈ db.borrow_records ∧ r.return_date = none ∧
          r.borrow_date < now - days * secondsPerDay) ∧
      report_overdue_default db now = report_overdue db now 14 := by
  refine ⟨List.filter_sublist _, fun r => ?_, rfl⟩
  simp [report_overdue, List.mem_filter, Option.isNone_iff_eq_none, and_assoc]

/-- C6: `DeleteBookGuarded(bookID)` fails with `HasBorrowHistory` and
changes nothing whenever some borrow record (open or closed) references
the book; when no record references it, it succeeds and exactly the
rows with that `book_id` disappear from the books table, the other
tables untouched. -/
theorem delete_book_guarded (db : DB) (bid : Nat) :
    ((∃ r ∈ db.borrow_records, r.book_id = bid) →
        delete_book db bid = (Except.error LibError.HasBorrowHistory, db)) ∧
      ((∀ r ∈ db.borrow_records, r.book_id ≠ bid) →
        (∃ deleted, (delete_book db bid).1 = Except.ok deleted) ∧
          (∀ b, b ∈ (delete_book db bid).2.books ↔ b ∈ db.books ∧ b.book_id ≠ bid) ∧
          (delete_book db bid).2.members = db.members ∧
          (delete_book db bid).2.borrow_records = db.borrow_records) := by
  constructor
  · rintro ⟨r, hr, hbid⟩
    have hne : db.borrow_records.filter (fun r => r.book_id == bid) ≠ [] := by
      intro hnil
      exact (List.filter_eq_nil_iff.mp hnil r hr) (by simp [hbid])
    simp only [delete_book]
    rw [if_pos (by simpa [List.isEmpty_iff] using hne)]
  · intro hnone
    have hnil : db.borrow_records.filter (fun r => r.book_id == bid) = [] :=
      List.filter_eq_nil_iff.mpr (fun r hr => by simpa using hnone r hr)
    simp only [delete_book, hnil]
    refine ⟨⟨_, rfl⟩, fun b => ?_, rfl, rfl⟩
    simp [List.mem_filter]

/-- C7: `DeleteMemberGuarded(memberID)` fails with `HasActiveLoans` and
changes nothing whenever some open borrow record references the member;
when every record referencing the member is closed (returned history
does not block), it succeeds and exactly the rows with that `member_id`
disappear from the members table, the other tables untouched. -/
theorem delete_member_guarded (db : DB) (mid : Nat) :
    ((∃ r ∈ db.borrow_records, r.member_id = mid ∧ r.return_date = none) →
        delete_member db mid = (Except.error LibError.HasActiveLoans, db)) ∧
      ((∀ r ∈ db.borrow_records, r.member_id = mid → r.return_date ≠ none) →
        (∃ deleted, (delete_member db mid).1 = Except.ok deleted) ∧
          (∀ m, m ∈ (delete_member db mid).2.members ↔ m ∈ db.members ∧ m.member_id ≠ mid) ∧
          (delete_member db mid).2.books = db.books ∧
          (delete_member db mid).2.borrow_records = db.borrow_records) := by
  constructor
  · rintro ⟨r, hr, hmid, hopen⟩
    have hne : db.borrow_records.filter
        (fun r => r.member_id == mid && r.return_date.isNone) ≠ [] := by
      intro hnil
      exact (List.filter_eq_nil_iff.mp hnil r hr)
        (by simp [hmid, Option.isNone_iff_eq_none, hopen])
    simp only [delete_member]
    rw [if_pos (by simpa [List.isEmpty_iff] using hne)]
  · intro hclosed
    have hnil : db.borrow_records.filter
        (fun r => r.member_id == mid && r.return_date.isNone) = [] := by
      refine List.filter_eq_nil_iff.mpr (fun r hr => ?_)
      simp only [Bool.and_eq_true, beq_iff_eq, Option.isNone_iff_eq_none, not_and]
      exact fun h => hclosed r hr h
    simp only [delete_member, hnil]
    refine ⟨⟨_, rfl⟩, fun m => ?_, rfl, rfl⟩
    simp [List.mem_filter]

/-- C9: `update_member_info` with no truthy field (each of name and
email absent or the empty string) performs no write: it reports
"Nothing to update." and returns the state unchanged. -/
theorem update_member_info_empty_noop (db : DB) (mid : Nat)
    (name email : Option String)
    (hn : name = none ∨ name = some "") (he : email = none ∨ email = some "") :
    update_member_info db mid name email = (UpdateOutcome.nothingToUpdate, db) := by
  have hn' : strTruthy name = false := by
    rcases hn with h | h <;> simp [h, strTruthy, String.isEmpty]
  have he' : strTruthy email = false := by
    rcases he with h | h <;> simp [h, strTruthy, String.isEmpty]
  simp [update_member_info, hn', he']

/-- Witness for C9 at a concrete state: member 1 exists, both arguments
are empty, nothing happens. -/
theorem update_member_info_empty_noop_witness :
    update_member_info
        { members := [{ member_id := 1, name := "ann", email := "a@x" }],
          books := [], borrow_records := [] }
        1 none (some "") =
      (UpdateOutcome.nothingToUpdate,
        { members := [{ member_id := 1, name := "ann", email := "a@x" }],
          books := [], borrow_records := [] }) :=
  update_member_info_empty_noop _ 1 none (some "") (Or.inl rfl) (Or.inr rfl)

/-- C10: deleting a member id that resolves to no member row, in a state
whose borrow records all reference existing members, does not fail with
`NotFound`: the active-loan check finds nothing, the delete removes zero
rows, and the call reports success with an unchanged state. -/
theorem delete_member_absent_succeeds (db : DB) (mid : Nat)
    (hri : ∀ r ∈ db.borrow_records, ∃ m ∈ db.members, m.member_id = r.member_id)
    (habs : ∀ m ∈ db.members, m.member_id ≠ mid) :
    delete_member db mid = (Except.ok [], db) := by
  have hnorec : ∀ r ∈ db.borrow_records, r.member_id ≠ mid := by
    intro r hr hmid
    obtain ⟨m, hm, hid⟩ := hri r hr
    exact habs m hm (hid.trans hmid)
  have hnil : db.borrow_records.filter
      (fun r => r.member_id == mid && r.return_date.isNone) = [] := by
    refine List.filter_eq_nil_iff.mpr (fun r hr => ?_)
    simp [hnorec r hr]
  have hdel : db.members.filter (fun m => m.member_id == mid) = [] := by
    refine List.filter_eq_nil_iff.mpr (fun m hm => ?_)
    simp [habs m hm]
  have hkeep : db.members.filter (fun m => !(m.member_id == mid)) = db.members := by
    refine List.filter_eq_self.mpr (fun m hm => ?_)
    simp [habs m hm]
  obtain ⟨ms, bs, rs⟩ := db
  simp only [delete_member] at *
  simp [hnil, hdel, hkeep]

/-- Witness for C10: member id 2 does not exist; the only record
references the existing member 1; deletion of member 2 reports success
and changes nothing. -/
theorem delete_member_absent_succeeds_witness :
    delete_member
        { members := [{ member_id := 1, name := "ann", email := "a@x" }],
          books := [],
          borrow_records := [{ record_id := 1, member_id := 1, book_id := 4,
                               borrow_date := 0, return_date := none }] }
        2 =
      (Except.ok [],
        { members := [{ member_id := 1, name := "ann", email := "a@x" }],
          books := [],
          borrow_records := [{ record_id := 1, member_id := 1, book_id := 4,
                               borrow_date := 0, return_date := none }] }) :=
  delete_member_absent_succeeds _ 2
    (by
      intro r hr
      refine ⟨{ member_id := 1, name := "ann", email := "a@x" }, by simp, ?_⟩
      simp at hr
      simp [hr])
    (by intro m hm; simp at hm; simp [hm])

end LibraryMS

namespace LibraryMS

/-- A map whose function leaves the search predicate invariant commutes
with `find?`. -/
theorem find?_map_pred {α : Type} (l : List α) (f : α → α) (p : α → Bool)
    (h : ∀ a, p (f a) = p a) :
    (l.map f).find? p = (l.find? p).map f := by
  rw [List.find?_map]
  have hpf : (p ∘ f) = p := funext h
  rw [hpf]

/-- C1: for a member id and a book id that resolve to existing rows,
borrowing fails with `OutOfStock` and changes nothing when the book's
stock is at most 0; otherwise it succeeds, appends exactly one new open
record with `borrow_date = now`, decrements that book's stock by
exactly 1, and touches no member row and no other book. -/
theorem borrow_book_spec (db : DB) (mid bid : Nat) (now : Int) (bk : Book)
    (hm : (db.members.find? (fun m => m.member_id == mid)).isSome)
    (hb : db.books.find? (fun b => b.book_id == bid) = some bk) :
    (bk.stock ≤ 0 →
        borrow_book db mid bid now = (Except.error LibError.OutOfStock, db)) ∧
      (0 < bk.stock →
        ∃ r, (borrow_book db mid bid now).1 = Except.ok r ∧
          r.member_id = mid ∧ r.book_id = bid ∧
          r.borrow_date = now ∧ r.return_date = none ∧
          (borrow_book db mid bid now).2.borrow_records = db.borrow_records ++ [r] ∧
          (borrow_book db mid bid now).2.books.find? (fun b => b.book_id == bid)
              = some { bk with stock := bk.stock - 1 } ∧
          (borrow_book db mid bid now).2.members = db.members ∧
          ∀ bid2, bid2 ≠ bid →
            (borrow_book db mid bid now).2.books.find? (fun b => b.book_id == bid2)
              = db.books.find? (fun b => b.book_id == bid2)) := by
  obtain ⟨m, hm'⟩ := Option.isSome_iff_exists.mp hm
  have hbk_id : bk.book_id = bid := by simpa using List.find?_some hb
  constructor
  · intro hle
    simp only [borrow_book, hm', hb]
    rw [if_pos hle]
  · intro hpos
    simp only [borrow_book, hm', hb]
    rw [if_neg (not_le.mpr hpos)]
    refine ⟨_, rfl, rfl, rfl, rfl, rfl, rfl, ?_, rfl, ?_⟩
    · rw [find?_map_pred _ _ _ (fun b => by by_cases hc : b.book_id == bid <;> simp [hc]),
        hb]
      simp [hbk_id]
    · intro bid2 hne
      rw [find?_map_pred _ _ _ (fun b => by by_cases hc : b.book_id == bid <;> simp [hc])]
      cases hfind : db.books.find? (fun b => b.book_id == bid2) with
      | none => rfl
      | some bk2 =>
        have h2 : bk2.book_id = bid2 := by simpa using List.find?_some hfind
        simp [Option.map_some, h2, hne]

/-- Witness for C1: in `stockDB`, borrowing book 2 (stock 0) fails with
`OutOfStock` and changes nothing, and borrowing book 1 (stock 1)
appends one new open record. -/
theorem borrow_book_spec_witness :
    borrow_book stockDB 1 2 50 = (Except.error LibError.OutOfStock, stockDB) ∧
      ∃ r, (borrow_book stockDB 1 1 100).1 = Except.ok r ∧
        r.borrow_date = 100 ∧ r.return_date = none ∧
        (borrow_book stockDB 1 1 100).2.borrow_records =
          stockDB.borrow_records ++ [r] := by
  constructor
  · exact (borrow_book_spec stockDB 1 2 50 emptyBook (by decide) (by decide)).1
      (by decide)
  · obtain ⟨r, h1, _, _, h4, h5, h6, _⟩ :=
      (borrow_book_spec stockDB 1 1 100 duneBook (by decide) (by decide)).2
        (by decide)
    exact ⟨r, h1, h4, h5, h6⟩

/-- C2: returning an open record (whose book exists) succeeds, closes
the record with `return_date = now`, and increments the referenced
book's stock by exactly 1; a second return of the same, now closed,
record fails with `AlreadyReturned` and leaves the whole state
unchanged. -/
theorem return_book_spec (db : DB) (rid : Nat) (now now2 : Int)
    (r : BorrowRecord) (bk : Book)
    (hr : db.borrow_records.find? (fun q => q.record_id == rid) = some r)
    (hopen : r.return_date = none)
    (hbk : db.books.find? (fun b => b.book_id == r.book_id) = some bk) :
    (return_book db rid now).1 = Except.ok { r with return_date := some now } ∧
      (return_book db rid now).2.borrow_records.find? (fun q => q.record_id == rid)
          = some { r with return_date := some now } ∧
      (return_book db rid now).2.books.find? (fun b => b.book_id == r.book_id)
          = some { bk with stock := bk.stock + 1 } ∧
      return_book (return_book db rid now).2 rid now2 =
        (Except.error LibError.AlreadyReturned, (return_book db rid now).2) := by
  have hr_id : r.record_id = rid := by simpa using List.find?_some hr
  have hbk_id : bk.book_id = r.book_id := by simpa using List.find?_some hbk
  have hrecs :
      (return_book db rid now).2.borrow_records.find? (fun q => q.record_id == rid)
        = some { r with return_date := some now } := by
    simp only [return_book, hr, hopen]
    rw [find?_map_pred _ _ _ (fun q => by by_cases hc : q.record_id == rid <;> simp [hc]),
      hr]
    simp [hr_id]
  refine ⟨by simp only [return_book, hr, hopen], hrecs, ?_, ?_⟩
  · simp only [return_book, hr, hopen]
    rw [find?_map_pred _ _ _
        (fun b => by by_cases hc : b.book_id == r.book_id <;> simp [hc]),
      hbk]
    simp [hbk_id]
  · rw [return_book, hrecs]

/-- Witness for C2: in `loanDB`, returning record 1 closes it and bumps
the stock of book 1 from 1 to 2; returning it again fails with
`AlreadyReturned` and changes nothing. -/
theorem return_book_spec_witness :
    (return_book loanDB 1 500).1 =
        Except.ok { openRec with return_date := some 500 } ∧
      (return_book loanDB 1 500).2.books.find? (fun b => b.book_id == 1)
          = some { duneBook with stock := 2 } ∧
      return_book (return_book loanDB 1 500).2 1 900 =
        (Except.error LibError.AlreadyReturned, (return_book loanDB 1 500).2) := by
  obtain ⟨h1, _, h3, h4⟩ :=
    return_book_spec loanDB 1 500 900 openRec duneBook (by decide) (by decide)
      (by decide)
  exact ⟨h1, h3, h4⟩

end LibraryMS

namespace LibraryMS

/-- The initial accumulator is below a `foldl max`. -/
theorem init_le_foldl_max (l : List Nat) (a : Nat) : a ≤ l.foldl max a := by
  induction l generalizing a with
  | nil => exact le_refl a
  | cons b l ih => exact le_trans (le_max_left a b) (ih (max a b))

/-- Every element of a list is below a `foldl max` over it. -/
theorem mem_le_foldl_max (l : List Nat) (a x : Nat) (hx : x ∈ l) :
    x ≤ l.foldl max a := by
  induction l generalizing a with
  | nil => cases hx
  | cons b l ih =>
    rcases List.mem_cons.mp hx with rfl | hx'
    · exact le_trans (le_max_right a x) (init_le_foldl_max l (max a x))
    · exact ih (max a b) hx'

/-- The id the store would assign next is not an existing record id. -/
theorem nextRecordId_fresh (db : DB) :
    ∀ r ∈ db.borrow_records, r.record_id ≠ nextRecordId db := by
  intro r hr heq
  have hle : r.record_id ≤ (db.borrow_records.map (fun q => q.record_id)).foldl max 0 :=
    mem_le_foldl_max _ 0 _ (List.mem_map.mpr ⟨r, hr, rfl⟩)
  rw [nextRecordId] at heq
  omega

/-- A successful `find?` splits the list at the found element, with the
predicate false on everything before it. -/
theorem find?_split {α : Type} (l : List α) (p : α → Bool) (a : α)
    (h : l.find? p = some a) :
    ∃ pre post, l = pre ++ a :: post ∧ ∀ x ∈ pre, p x = false := by
  induction l with
  | nil => cases h
  | cons b rest ih =>
    cases hpb : p b with
    | true =>
      rw [List.find?_cons_of_pos _ hpb] at h
      obtain rfl : b = a := by injection h
      exact ⟨[], rest, rfl, by intro x hx; cases hx⟩
    | false =>
      rw [List.find?_cons_of_neg _ (by simp [hpb])] at h
      obtain ⟨pre, post, rfl, hpre⟩ := ih h
      refine ⟨b :: pre, post, rfl, ?_⟩
      intro x hx
      rcases List.mem_cons.mp hx with rfl | hx'
      · exact hpb
      · exact hpre x hx'

/-- Updating the unique record with a given id rewrites exactly that
record: the list splits around it and the map changes nothing else. -/
theorem map_update_record_split (recs : List BorrowRecord) (rid : Nat)
    (r : BorrowRecord) (g : BorrowRecord → BorrowRecord)
    (hr : recs.find? (fun q => q.record_id == rid) = some r)
    (hnd : (recs.map (fun q => q.record_id)).Nodup) :
    ∃ pre post, recs = pre ++ r :: post ∧
      recs.map (fun q => if q.record_id == rid then g q else q)
        = pre ++ g r :: post := by
  obtain ⟨pre, post, hsplit, hpre⟩ := find?_split _ _ _ hr
  have hrid : r.record_id = rid := by simpa using List.find?_some hr
  have hpost : ∀ q ∈ post, q.record_id ≠ rid := by
    rw [hsplit, List.map_append] at hnd
    have h1 : ((r :: post).map (fun q => q.record_id)).Nodup :=
      List.Nodup.of_append_right hnd
    rw [List.map_cons, List.nodup_cons] at h1
    intro q hq hqid
    exact h1.1 (by rw [← hrid, ← hqid] at *; exact List.mem_map.mpr ⟨q, hq, rfl⟩)
  refine ⟨pre, post, hsplit, ?_⟩
  rw [hsplit, List.map_append, List.map_cons]
  congr 1
  · rw [List.map_congr_left (fun x hx => ?_), List.map_id]
    rw [if_neg (by simp [hpre x hx])]
    rfl
  · congr 1
    · rw [if_pos (by simp [hrid])]
    · rw [List.map_congr_left (fun x hx => ?_), List.map_id]
      rw [if_neg (by simp [hpost x hx])]
      rfl

end LibraryMS

namespace LibraryMS

/-- One borrow step preserves the stock invariant. -/
theorem borrow_book_preserves_StockInv (owned : Nat → Int) (db : DB)
    (mid bid : Nat) (now : Int) (h : StockInv owned db) :
    StockInv owned (borrow_book db mid bid now).2 := by
  obtain ⟨hnd, hbooks⟩ := h
  cases hm : db.members.find? (fun m => m.member_id == mid) with
  | none => simp only [borrow_book, hm]; exact ⟨hnd, hbooks⟩
  | some m =>
  cases hb : db.books.find? (fun b => b.book_id == bid) with
  | none => simp only [borrow_book, hm, hb]; exact ⟨hnd, hbooks⟩
  | some bk =>
  by_cases hle : bk.stock ≤ 0
  · simp only [borrow_book, hm, hb]
    rw [if_pos hle]
    exact ⟨hnd, hbooks⟩
  · simp only [borrow_book, hm, hb]
    rw [if_neg hle]
    have hbk_id : bk.book_id = bid := by simpa using List.find?_some hb
    have hbk_stock : bk.stock = owned bid - (openCount db.borrow_records bid : Int) := by
      have h2 := (hbooks bk (List.mem_of_find?_eq_some hb)).2
      rwa [hbk_id] at h2
    constructor
    · rw [List.map_append, List.nodup_append]
      refine ⟨hnd, List.nodup_singleton _, ?_⟩
      intro a ha ha'
      obtain ⟨q, hq, hqa⟩ := List.mem_map.mp ha
      simp only [List.map_cons, List.map_nil, List.mem_singleton] at ha'
      exact nextRecordId_fresh db q hq (hqa.symm ▸ ha')
    · intro bk' hbk'
      obtain ⟨b0, hb0, rfl⟩ := List.mem_map.mp hbk'
      have hb0_inv := hbooks b0 hb0
      have hopen : ∀ b', openCount (db.borrow_records ++
          [{ record_id := nextRecordId db, member_id := mid, book_id := bid,
             borrow_date := now, return_date := none }]) b'
          = openCount db.borrow_records b' + (if bid = b' then 1 else 0) := by
        intro b'
        unfold openCount
        rw [List.countP_append, List.countP_cons, List.countP_nil]
        by_cases hc : bid = b' <;> simp [hc]
      by_cases hc : b0.book_id = bid
      · rw [if_pos (by simp [hc])]
        have hb0_stock : b0.stock = owned bid - (openCount db.borrow_records bid : Int) := by
          have h2 := hb0_inv.2
          rwa [hc] at h2
        have hpos : 0 < b0.stock := by
          rw [hb0_stock, ← hbk_stock]
          exact lt_of_not_le hle
        dsimp only
        rw [hopen b0.book_id, hc, if_pos rfl]
        refine ⟨by omega, by omega⟩
      · rw [if_neg (by simp [hc])]
        refine ⟨hb0_inv.1, ?_⟩
        dsimp only
        rw [hopen b0.book_id, if_neg (fun hh => hc hh.symm)]
        simpa using hb0_inv.2

/-- One return step preserves the stock invariant. -/
theorem return_book_preserves_StockInv (owned : Nat → Int) (db : DB)
    (rid : Nat) (now : Int) (h : StockInv owned db) :
    StockInv owned (return_book db rid now).2 := by
  obtain ⟨hnd, hbooks⟩ := h
  cases hr : db.borrow_records.find? (fun q => q.record_id == rid) with
  | none => simp only [return_book, hr]; exact ⟨hnd, hbooks⟩
  | some r =>
  cases hrd : r.return_date with
  | some d => simp only [return_book, hr, hrd]; exact ⟨hnd, hbooks⟩
  | none =>
  simp only [return_book, hr, hrd]
  obtain ⟨pre, post, hsplit, hmap⟩ :=
    map_update_record_split db.borrow_records rid r
      (fun q => { q with return_date := some now }) hr hnd
  rw [hmap]
  have hnd' : ((pre ++ { r with return_date := some now } :: post).map
      (fun q => q.record_id)).Nodup := by
    have hmapeq : (pre ++ { r with return_date := some now } :: post).map
        (fun q => q.record_id) = db.borrow_records.map (fun q => q.record_id) := by
      rw [hsplit]
      simp [List.map_append]
    rw [hmapeq]
    exact hnd
  refine ⟨hnd', ?_⟩
  intro bk' hbk'
  obtain ⟨b0, hb0, rfl⟩ := List.mem_map.mp hbk'
  have hb0_inv := hbooks b0 hb0
  have hopen_old : openCount db.borrow_records b0.book_id
      = openCount (pre ++ post) b0.book_id
        + (if r.book_id = b0.book_id then 1 else 0) := by
    rw [hsplit]
    unfold openCount
    rw [List.countP_append, List.countP_cons, List.countP_append]
    by_cases hc : r.book_id = b0.book_id
    · simp [hc, hrd]
      omega
    · simp [hc, hrd]
  have hopen_new : openCount (pre ++ { r with return_date := some now } :: post) b0.book_id
      = openCount (pre ++ post) b0.book_id := by
    unfold openCount
    rw [List.countP_append, List.countP_cons, List.countP_append]
    simp
  by_cases hc : b0.book_id = r.book_id
  · rw [if_pos (by simp [hc])]
    dsimp only
    rw [hopen_new]
    have h2 := hb0_inv.2
    rw [hopen_old, if_pos hc.symm] at h2
    have h1 := hb0_inv.1
    refine ⟨by omega, by omega⟩
  · rw [if_neg (by simp [hc])]
    dsimp only
    rw [hopen_new]
    have h2 := hb0_inv.2
    rw [hopen_old, if_neg (fun hh => hc hh.symm)] at h2
    exact ⟨hb0_inv.1, by simpa using h2⟩

/-- Any single lending operation preserves the stock invariant. -/
theorem applyOp_preserves_StockInv (owned : Nat → Int) (db : DB) (op : Op)
    (h : StockInv owned db) : StockInv owned (applyOp db op) := by
  cases op with
  | borrowOp mid bid now => exact borrow_book_preserves_StockInv owned db mid bid now h
  | returnOp rid now => exact return_book_preserves_StockInv owned db rid now h

/-- C3: from any state satisfying the stock invariant for some ghost
copy count `owned` (in particular any state with distinct record ids,
all stocks non-negative and `owned` taken as stock plus open loans),
every finite sequence of borrow and return operations keeps, for every
book row, `stock ≥ 0` and `stock = owned − (open borrow records of the
book)` — after each operation, since every prefix of the sequence is
itself such a sequence. -/
theorem stock_invariant_preserved (owned : Nat → Int) (db : DB) (ops : List Op)
    (h : StockInv owned db) : StockInv owned (applyOps db ops) := by
  induction ops generalizing db with
  | nil => exact h
  | cons op rest ih => exact ih _ (applyOp_preserves_StockInv owned db op h)

/-- Witness for C3: the invariant holds of `stockDB` with its natural
copy counts and still holds after borrowing book 1, returning it, and
trying the out-of-stock book 2. -/
theorem stock_invariant_preserved_witness :
    StockInv ownedStockDB stockDB ∧
      StockInv ownedStockDB (applyOps stockDB opsEx) :=
  ⟨by decide, stock_invariant_preserved ownedStockDB stockDB opsEx (by decide)⟩

end LibraryMS

namespace LibraryMS

/-- One aggregation step bumps exactly the key of the processed record
in the `counts` dict. -/
theorem lookupCount_bumpCount (acc : List (Nat × Nat)) (bid b : Nat) :
    lookupCount (bumpCount bid acc) b
      = lookupCount acc b + (if b = bid then 1 else 0) := by
  induction acc with
  | nil =>
    by_cases hc : b = bid
    · simp [bumpCount, lookupCount, hc]
    · simp [bumpCount, lookupCount, hc, Ne.symm hc]
  | cons p rest ih =>
    obtain ⟨b0, c0⟩ := p
    by_cases h0 : b0 = bid
    · subst h0
      by_cases hb : b0 = b
      · subst hb
        simp [bumpCount, lookupCount]
      · simp [bumpCount, lookupCount, hb, Ne.symm hb]
    · by_cases hb : b0 = b
      · have hbb : ¬b = bid := fun h => h0 (hb.trans h)
        simp [bumpCount, lookupCount, h0, hb, hbb]
      · simp [bumpCount, lookupCount, h0, hb, ih]

/-- The `counts` dict after folding over a record list holds, for each
book, its previous value plus the number of records for that book. -/
theorem lookupCount_foldl (records : List BorrowRecord)
    (acc : List (Nat × Nat)) (b : Nat) :
    lookupCount (records.foldl (fun a r => bumpCount r.book_id a) acc) b
      = lookupCount acc b + records.countP (fun r => r.book_id == b) := by
  induction records generalizing acc with
  | nil => simp [List.countP_nil]
  | cons r rest ih =>
    rw [List.foldl_cons, ih, lookupCount_bumpCount, List.countP_cons]
    by_cases hc : r.book_id = b
    · simp [hc]
      omega
    · simp [hc, Ne.symm hc]

/-- C8: the client-side aggregation of `report_most_borrowed` assigns
every book exactly the store-side grouped count of its borrow records,
so the two implementations agree on the bookID→count mapping. -/
theorem clientCount_eq_grouped (records : List BorrowRecord) (bid : Nat) :
    clientCount records bid = countBorrowRecordsGroupedByBook records bid := by
  unfold clientCount countBorrowRecordsGroupedByBook countsItems
  simpa [lookupCount] using lookupCount_foldl records [] bid

end LibraryMS

namespace LibraryMS

/-- The `counts` dict for a whole record list maps each book to its
grouped count. -/
theorem lookupCount_countsItems (records : List BorrowRecord) (b : Nat) :
    lookupCount (countsItems records) b
      = records.countP (fun r => r.book_id == b) := by
  unfold countsItems
  simpa [lookupCount] using lookupCount_foldl records [] b

/-- Bumping a key either keeps the key list (key present) or appends
the key at the end (key absent). -/
theorem bumpCount_keys (acc : List (Nat × Nat)) (bid : Nat) :
    (bumpCount bid acc).map Prod.fst =
      if bid ∈ acc.map Prod.fst then acc.map Prod.fst
      else acc.map Prod.fst ++ [bid] := by
  induction acc with
  | nil => simp [bumpCount]
  | cons p rest ih =>
    obtain ⟨b0, c0⟩ := p
    by_cases h0 : b0 = bid
    · subst h0
      simp [bumpCount]
    · simp only [bumpCount, beq_iff_eq, if_neg h0, List.map_cons, ih]
      by_cases hm : bid ∈ rest.map Prod.fst <;>
        simp [hm, List.mem_cons, Ne.symm h0]

/-- The keys of the `counts` dict are distinct. -/
theorem countsItems_keys_nodup (records : List BorrowRecord) :
    ((countsItems records).map Prod.fst).Nodup := by
  suffices h : ∀ acc : List (Nat × Nat), (acc.map Prod.fst).Nodup →
      ((records.foldl (fun a r => bumpCount r.book_id a) acc).map Prod.fst).Nodup by
    exact h [] (by simp)
  induction records with
  | nil => intro acc h; simpa using h
  | cons r rest ih =>
    intro acc h
    rw [List.foldl_cons]
    refine ih _ ?_
    rw [bumpCount_keys]
    by_cases hm : r.book_id ∈ acc.map Prod.fst
    · simpa [hm] using h
    · rw [if_neg hm, List.nodup_append]
      refine ⟨h, List.nodup_singleton _, ?_⟩
      intro x hx hx'
      rw [List.mem_singleton] at hx'
      subst hx'
      exact hm hx

/-- Every count stored in the dict is positive. -/
theorem countsItems_pos (records : List BorrowRecord) :
    ∀ p ∈ countsItems records, 0 < p.2 := by
  suffices h : ∀ acc : List (Nat × Nat), (∀ p ∈ acc, 0 < p.2) →
      ∀ p ∈ records.foldl (fun a r => bumpCount r.book_id a) acc, 0 < p.2 by
    exact h [] (by simp)
  have hstep : ∀ (bid : Nat) (acc : List (Nat × Nat)), (∀ p ∈ acc, 0 < p.2) →
      ∀ p ∈ bumpCount bid acc, 0 < p.2 := by
    intro bid acc
    induction acc with
    | nil =>
      intro _ p hp
      rw [bumpCount, List.mem_singleton] at hp
      subst hp
      exact Nat.one_pos
    | cons q rest ih =>
      intro h p hp
      obtain ⟨b0, c0⟩ := q
      by_cases h0 : b0 = bid
      · subst h0
        simp only [bumpCount, beq_self_eq_true, if_pos] at hp
        rcases List.mem_cons.mp hp with rfl | hp'
        · exact Nat.succ_pos c0
        · exact h p (List.mem_cons_of_mem _ hp')
      · simp only [bumpCount, beq_iff_eq, if_neg h0] at hp
        rcases List.mem_cons.mp hp with rfl | hp'
        · exact h _ (List.mem_cons_self _ _)
        · exact ih (fun q hq => h q (List.mem_cons_of_mem _ hq)) p hp'
  induction records with
  | nil => intro acc h; simpa using h
  | cons r rest ih =>
    intro acc h
    rw [List.foldl_cons]
    exact ih _ (hstep r.book_id acc h)

/-- With distinct keys, looking a member pair's key up yields its
count. -/
theorem lookupCount_of_mem (acc : List (Nat × Nat)) (p : Nat × Nat)
    (hnd : (acc.map Prod.fst).Nodup) (hp : p ∈ acc) :
    lookupCount acc p.1 = p.2 := by
  induction acc with
  | nil => cases hp
  | cons q rest ih =>
    obtain ⟨b0, c0⟩ := q
    rw [List.map_cons, List.nodup_cons] at hnd
    rcases List.mem_cons.mp hp with rfl | hp'
    · simp [lookupCount]
    · have hne : ¬b0 = p.1 := by
        intro h
        exact hnd.1 (h ▸ List.mem_map.mpr ⟨p, hp', rfl⟩)
      simp only [lookupCount, beq_iff_eq, if_neg hne]
      exact ih hnd.2 hp'

/-- Every pair in the `counts` dict carries the exact grouped count of
its book. -/
theorem count_of_mem_countsItems (records : List BorrowRecord) (p : Nat × Nat)
    (hp : p ∈ countsItems records) :
    p.2 = records.countP (fun r => r.book_id == p.1) := by
  rw [← lookupCount_countsItems,
    lookupCount_of_mem _ p (countsItems_keys_nodup records) hp]

/-- An absent key looks up to `0`. -/
theorem lookupCount_eq_zero_of_not_mem (acc : List (Nat × Nat)) (b : Nat)
    (h : b ∉ acc.map Prod.fst) : lookupCount acc b = 0 := by
  induction acc with
  | nil => rfl
  | cons q rest ih =>
    obtain ⟨b0, c0⟩ := q
    rw [List.map_cons, List.mem_cons, not_or] at h
    simp only [lookupCount, beq_iff_eq, if_neg (fun hh : b0 = b => h.1 hh.symm)]
    exact ih h.2

/-- The dict's keys are exactly the books with at least one borrow
record. -/
theorem mem_keys_countsItems (records : List BorrowRecord) (b : Nat) :
    b ∈ (countsItems records).map Prod.fst ↔
      0 < records.countP (fun r => r.book_id == b) := by
  constructor
  · intro h
    obtain ⟨p, hp, rfl⟩ := List.mem_map.mp h
    rw [← lookupCount_countsItems,
      lookupCount_of_mem _ p (countsItems_keys_nodup records) hp]
    exact countsItems_pos records p hp
  · intro h
    by_contra hmem
    have h0 := lookupCount_eq_zero_of_not_mem _ b hmem
    rw [lookupCount_countsItems] at h0
    omega

/-- Inserting into a list keeps, for each count value, the sequence of
pairs carrying that count — with the inserted pair in front of the ties
that were already present (they come later in the recursion of the
stable sort). -/
theorem filter_orderedInsert (p : Nat × Nat) (l : List (Nat × Nat)) (c : Nat) :
    (List.orderedInsert countGE p l).filter (fun x => x.2 == c)
      = if p.2 == c then p :: l.filter (fun x => x.2 == c)
        else l.filter (fun x => x.2 == c) := by
  induction l with
  | nil =>
    by_cases hc : p.2 = c <;>
      simp [List.orderedInsert, List.filter_cons, hc]
  | cons b l ih =>
    simp only [List.orderedInsert]
    by_cases hle : countGE p b
    · rw [if_pos hle]
      by_cases h1 : p.2 = c <;> by_cases h2 : b.2 = c <;>
        simp [List.filter_cons, h1, h2]
    · rw [if_neg hle]
      have hbc : p.2 < b.2 := lt_of_not_le hle
      by_cases h1 : p.2 = c
      · have h2 : ¬b.2 = c := by omega
        simp [List.filter_cons, h1, h2, ih]
      · by_cases h2 : b.2 = c <;> simp [List.filter_cons, h1, h2, ih]

/-- The sort of `report_most_borrowed` is stable: for each count value
it preserves the order of the tied pairs coming from the `counts`
dict. -/
theorem filter_insertionSort (l : List (Nat × Nat)) (c : Nat) :
    (List.insertionSort countGE l).filter (fun x => x.2 == c)
      = l.filter (fun x => x.2 == c) := by
  induction l with
  | nil => rfl
  | cons a l ih =>
    simp only [List.insertionSort]
    rw [filter_orderedInsert]
    by_cases h1 : a.2 = c <;> simp [List.filter_cons, h1, ih]

end LibraryMS

namespace LibraryMS

/-- C4 (amended): `report_most_borrowed(limit)` returns per-book counts
of all borrow records sorted by count descending and truncated to
`limit` entries (default 10): every reported pair carries the exact
grouped count of its book, the untruncated sorted list carries exactly
the books with at least one record, and ties between equal counts keep
the order of first appearance in the ledger (the stable sort of the
insertion-ordered dict) — not ascending book id. -/
theorem report_most_borrowed_sorted_counts (db : DB) (limit : Nat) :
    List.Pairwise countGE (report_most_borrowed db limit) ∧
      (report_most_borrowed db limit).length
          = min limit (countsItems db.borrow_records).length ∧
      (∀ p ∈ report_most_borrowed db limit,
        p.2 = countBorrowRecordsGroupedByBook db.borrow_records p.1) ∧
      (∀ b, b ∈ (List.insertionSort countGE (countsItems db.borrow_records)).map Prod.fst
          ↔ 0 < countBorrowRecordsGroupedByBook db.borrow_records b) ∧
      (∀ c, (List.insertionSort countGE (countsItems db.borrow_records)).filter
            (fun x => x.2 == c)
          = (countsItems db.borrow_records).filter (fun x => x.2 == c)) ∧
      report_most_borrowed_default db = report_most_borrowed db 10 := by
  refine ⟨?_, ?_, ?_, ?_, fun c => filter_insertionSort _ c, rfl⟩
  · exact List.Pairwise.sublist (List.take_sublist _ _)
      (List.sorted_insertionSort countGE _)
  · rw [report_most_borrowed, List.length_take,
      (List.perm_insertionSort countGE _).length_eq]
  · intro p hp
    have hp' : p ∈ countsItems db.borrow_records :=
      (List.perm_insertionSort countGE _).mem_iff.mp ((List.take_sublist _ _).subset hp)
    exact count_of_mem_countsItems _ p hp'
  · intro b
    rw [List.Perm.mem_iff ((List.perm_insertionSort countGE _).map Prod.fst)]
    exact mem_keys_countsItems db.borrow_records b

/-- C4 counterexample: in `tieDB` books 5 and 3 each have one borrow
record and book 5 was borrowed first; the report lists book 5 before
book 3, so within a tie the output is not ordered by ascending book id
as the claim states. -/
theorem report_most_borrowed_tie_counterexample :
    report_most_borrowed tieDB 2 = [(5, 1), (3, 1)] ∧
      ¬ List.Pairwise countDescIdAsc (report_most_borrowed tieDB 2) := by
  refine ⟨by decide, by decide⟩

end LibraryMS

namespace LibraryMS

/-- Witness for C6: deleting book 1 of `loanDB` (which has a borrow
record) fails and changes nothing; deleting book 2 of `stockDB` (no
records at all) removes exactly the rows with id 2. -/
theorem delete_book_guarded_witness :
    delete_book loanDB 1 = (Except.error LibError.HasBorrowHistory, loanDB) ∧
      (∀ b, b ∈ (delete_book stockDB 2).2.books ↔
        b ∈ stockDB.books ∧ b.book_id ≠ 2) := by
  constructor
  · exact (delete_book_guarded loanDB 1).1 ⟨openRec, by decide, rfl⟩
  · exact ((delete_book_guarded stockDB 2).2 (by decide)).2.1

/-- Witness for C7: deleting member 1 of `loanDB` (open loan) fails and
changes nothing; deleting member 1 of a state whose only record for the
member is already returned removes the member row. -/
theorem delete_member_guarded_witness :
    delete_member loanDB 1 = (Except.error LibError.HasActiveLoans, loanDB) ∧
      (∀ m, m ∈ (delete_member
          { members := [annMember], books := [],
            borrow_records := [{ record_id := 1, member_id := 1, book_id := 1,
                                 borrow_date := 0, return_date := some 5 }] }
          1).2.members ↔
        m ∈ [annMember] ∧ m.member_id ≠ 1) := by
  constructor
  · exact (delete_member_guarded loanDB 1).1 ⟨openRec, by decide, rfl, rfl⟩
  · exact ((delete_member_guarded _ 1).2 (by decide)).2.1

end LibraryMS
